import Mathlib

/-!
Verification development for the EQL tokenizer/parser core
(`src/lexer.rs`, `src/parser/mod.rs`, `src/parser/operation.rs`,
`src/util.rs`).

Shallow embedding conventions:
* Rust `&str` slices become `List Char`.
* Unicode word segmentation (`unicode_segmentation::split_word_bounds`) and
  grapheme counting (`.graphemes(true).count()`) are modelled by executable
  functions `segmentLine` and `stringLength` that implement the UAX-29 rules
  restricted to the character classes the sources exercise: ASCII letters,
  Hangul jamo and digit runs cluster; runs of plain spaces cluster
  (WSegSpace); CR+LF is a single segment; CJK ideographs, tabs and the
  punctuation marks stand alone.  (MidLetter/MidNumLet sequences such as a
  full stop directly between two letters never occur in the statements under
  study and are not modelled.)
* Rust panics (arithmetic underflow on `usize`, out-of-range slice indexing,
  explicit `panic!` calls) are modelled by a dedicated `panic` result
  constructor so that panicking executions are observable values.
-/

namespace Eql

/-- Convenience: the character list of a string literal. -/
def chars (s : String) : List Char := s.toList

/-! Character classes (`src/util.rs`). -/

/-- Whitespace characters relevant to EQL sources (space, tab, CR, LF);
models `char::is_whitespace` on the alphabet in use. -/
def isWsChar (c : Char) : Bool :=
  c = ' ' || c = '\t' || c = '\r' || c = '\n'

/-- ASCII letter. -/
def isAsciiLetterChar (c : Char) : Bool :=
  ('A' ≤ c && c ≤ 'Z') || ('a' ≤ c && c ≤ 'z')

/-- Hangul leading consonant jamo (L), U+1100..U+115F. -/
def isHangulL (c : Char) : Bool :=
  0x1100 ≤ c.toNat && c.toNat ≤ 0x115F

/-- Hangul vowel jamo (V), U+1160..U+11A7. -/
def isHangulV (c : Char) : Bool :=
  0x1160 ≤ c.toNat && c.toNat ≤ 0x11A7

/-- Hangul trailing consonant jamo (T), U+11A8..U+11FF. -/
def isHangulT (c : Char) : Bool :=
  0x11A8 ≤ c.toNat && c.toNat ≤ 0x11FF

/-- Any Hangul jamo. -/
def isHangulJamo (c : Char) : Bool :=
  isHangulL c || isHangulV c || isHangulT c

/-- CJK unified ideograph (each is its own word segment under UAX-29). -/
def isCjkChar (c : Char) : Bool :=
  0x4E00 ≤ c.toNat && c.toNat ≤ 0x9FFF

/-- ASCII digit. -/
def isDigitChar (c : Char) : Bool :=
  '0' ≤ c && c ≤ '9'

/-- Combining mark (grapheme extender); covers U+0300..U+036F. -/
def isExtendChar (c : Char) : Bool :=
  0x0300 ≤ c.toNat && c.toNat ≤ 0x036F

/-- Unicode letter category (model of `GeneralCategory::is_letter` on the
alphabet in use): ASCII letters, Hangul jamo, CJK ideographs.
Models the per-character test of `util::is_alphabetic`. -/
def isLetterChar (c : Char) : Bool :=
  isAsciiLetterChar c || isHangulJamo c || isCjkChar c

/-- UAX-29 word-break class ALetter on the alphabet in use (CJK ideographs
are not ALetter: they do not cluster, cf. the `lex_words_and_whitespace`
test where 孫德明 lexes as three `Word` tokens). -/
def isALetterChar (c : Char) : Bool :=
  isAsciiLetterChar c || isHangulJamo c

/-- Decides whether UAX-29 word segmentation keeps `a` and `b` in the same
segment (no word boundary between them). -/
def wordNoBreak (a b : Char) : Bool :=
  (isALetterChar a && isALetterChar b) ||
  (a = ' ' && b = ' ') ||
  (a = '\r' && b = '\n') ||
  (isDigitChar a && isDigitChar b)

/-- Grapheme-cluster continuation: `b` does not start a new extended grapheme
cluster after `a` (CR+LF, combining marks, Hangul syllable composition). -/
def graphemeNoBreak (a b : Char) : Bool :=
  (a = '\r' && b = '\n') ||
  isExtendChar b ||
  (isHangulL a && (isHangulL b || isHangulV b)) ||
  ((isHangulV a && (isHangulV b || isHangulT b))) ||
  (isHangulT a && isHangulT b)

/-- Helper for `stringLength`: counts cluster starts in the tail, given the
previous character. -/
def stringLengthGo (p : Char) : List Char → Nat
  | [] => 0
  | c :: rest => (if graphemeNoBreak p c then 0 else 1) + stringLengthGo c rest

/-- Number of extended grapheme clusters; models `util::string_length`
(`word.graphemes(true).count()`). -/
def stringLength : List Char → Nat
  | [] => 0
  | c :: rest => 1 + stringLengthGo c rest

/-- Helper for `segmentLine`: `cur` is the reversed current segment, `p` its
last character. -/
def segmentLineGo (cur : List Char) (p : Char) : List Char → List (List Char)
  | [] => [cur.reverse]
  | c :: rest =>
    if wordNoBreak p c then segmentLineGo (c :: cur) c rest
    else cur.reverse :: segmentLineGo [c] c rest

/-- Splits one line into UAX-29 word-boundary segments; models
`line.split_word_bounds()`. -/
def segmentLine : List Char → List (List Char)
  | [] => []
  | c :: rest => segmentLineGo [c] c rest

/-- Helper for `splitLines`: `acc` is the reversed current line. -/
def splitLinesGo (acc : List Char) : List Char → List (List Char)
  | [] => if acc.isEmpty then [] else [acc.reverse]
  | c :: rest =>
    if c = '\n' then (c :: acc).reverse :: splitLinesGo [] rest
    else splitLinesGo (c :: acc) rest

/-- Splits the source in physical lines, each keeping its terminator;
models the `lines_with_terminator` iterator of `bstr` (a line ends at LF; a bare CR is not
a terminator). -/
def splitLines (s : List Char) : List (List Char) :=
  splitLinesGo [] s

/-! Tokens (`src/lexer.rs`). -/

/-- Value type of a token; models `lexer::TokenValue`.  `Whitespace` holds no
payload because EQL treats all whitespace as a single space. -/
inductive TokenValue where
  | Whitespace : TokenValue
  | Word : List Char → TokenValue
  | Punctuation : List Char → TokenValue
  | Unknown : List Char → TokenValue
deriving DecidableEq, Repr

/-- Models `TokenValue::get`: the string slice a value displays as. -/
def TokenValue.get : TokenValue → List Char
  | .Whitespace => [' ']
  | .Word s => s
  | .Punctuation s => s
  | .Unknown s => s

/-- Models the `fmt::Display` implementation of `TokenValue`. -/
def fmtTokenValue (v : TokenValue) : List Char :=
  let t : List Char :=
    match v with
    | .Whitespace => chars ("whitespace")
    | .Word _ => chars ("word")
    | .Punctuation _ => chars ("punctuation")
    | .Unknown _ => chars ("unknown")
  if v.get.isEmpty || v = .Whitespace then
    chars ("any ") ++ t ++ chars (" token")
  else
    t ++ chars (" token \"") ++ v.get ++ chars ("\"")

/-- A lexical token; models `lexer::Token` (the `line` field is the full
physical line the token sits on). -/
structure Token where
  value : TokenValue
  line : List Char
  line_number : Nat
  column_number : Nat
deriving DecidableEq, Repr

instance : Inhabited Token := ⟨⟨.Unknown [], [], 0, 0⟩⟩

/-- Models `lexer::Error`: an invalid token wrapped as the lex error. -/
structure LexError where
  token : Token
deriving DecidableEq, Repr

deriving instance DecidableEq for Except

/-- Models `lexer::is_punctuation`: a single byte among `, . ! ?`. -/
def isPunctuationSeg (s : List Char) : Bool :=
  match s with
  | [c] => c = ',' || c = '.' || c = '!' || c = '?'
  | _ => false

/-- Models `util::is_whitespace` (all characters whitespace). -/
def isWhitespaceSeg (s : List Char) : Bool :=
  s.all isWsChar

/-- Models `util::is_alphabetic` (all characters in the letter category). -/
def isAlphabeticSeg (s : List Char) : Bool :=
  s.all isLetterChar

/-- Models `lexer::get_token_value` (classification of one segment). -/
def getTokenValue (s : List Char) : TokenValue :=
  if isWhitespaceSeg s then .Whitespace
  else if isPunctuationSeg s then .Punctuation s
  else if isAlphabeticSeg s then .Word s
  else .Unknown s

/-- Models `lexer::get_token`: builds the token, failing on `Unknown`. -/
def getToken (s : List Char) (line_number column_number : Nat)
    (line : List Char) : Except LexError Token :=
  let token : Token :=
    { value := getTokenValue s, line := line,
      line_number := line_number, column_number := column_number }
  match getTokenValue s with
  | .Unknown _ => .error ⟨token⟩
  | _ => .ok token

/-- Helper for `lexLine`: emits one result per segment while advancing the
running column by the grapheme count of the segment (the inner closure of
`lex`). -/
def lexLineGo (line_number : Nat) (line : List Char) :
    List (List Char) → Nat → List (Except LexError Token)
  | [], _ => []
  | seg :: rest, col =>
    getToken seg line_number col line :: lexLineGo line_number line rest (col + stringLength seg)

/-- All per-segment results of one line, columns starting at 1. -/
def lexLine (line_number : Nat) (line : List Char) : List (Except LexError Token) :=
  lexLineGo line_number line (segmentLine line) 1

/-- Pairs each line with its 1-based line number; models `.enumerate()`
with the `+ 1` applied in `lex`. -/
def numberLines (n : Nat) : List (List Char) → List (Nat × List Char)
  | [] => []
  | l :: rest => (n, l) :: numberLines (n + 1) rest

/-- Concatenation of the per-line results; models the `flat_map`. -/
def lexAll : List (Nat × List Char) → List (Except LexError Token)
  | [] => []
  | p :: rest => lexLine p.1 p.2 ++ lexAll rest

/-- Models `collect::<Result<Vec<_>, _>>()`: first error wins. -/
def collectExcept : List (Except LexError Token) → Except LexError (List Token)
  | [] => .ok []
  | .error e :: _ => .error e
  | .ok t :: rest =>
    match collectExcept rest with
    | .error e => .error e
    | .ok ts => .ok (t :: ts)

/-- Models `lexer::lex`: split in lines, segment each line, classify each
segment, stop at the first unclassifiable one. -/
def lex (s : List Char) : Except LexError (List Token) :=
  collectExcept (lexAll (numberLines 1 (splitLines s)))

/-! Parser constants (`src/parser/mod.rs`, lines 9-35). -/

def KEYWORD_ADD : TokenValue := .Word (chars ("Add"))
def KEYWORD_CREATE : TokenValue := .Word (chars ("Create"))
def KEYWORD_REMOVE : TokenValue := .Word (chars ("Remove"))
def KEYWORD_SHOW : TokenValue := .Word (chars ("Show"))
def KEYWORDS : List TokenValue := [KEYWORD_ADD, KEYWORD_CREATE, KEYWORD_REMOVE, KEYWORD_SHOW]

def LINKER_AND : TokenValue := .Word (chars ("and"))
def LINKER_TO : TokenValue := .Word (chars ("to"))
def LINKER_FROM : TokenValue := .Word (chars ("from"))

def RESERVED : List TokenValue :=
  [KEYWORD_ADD, KEYWORD_CREATE, KEYWORD_REMOVE, KEYWORD_SHOW, LINKER_AND, LINKER_TO, LINKER_FROM]

def SEPARATOR : TokenValue := .Punctuation (chars ("."))
def SEPARATOR_OVERWRITE : TokenValue := .Punctuation (chars ("!"))
def SEPARATOR_FAIL_SILENTLY : TokenValue := .Punctuation (chars ("?"))
def SEPARATOR_VALUES : TokenValue := .Punctuation (chars (","))
def TERMINATORS : List TokenValue := [SEPARATOR, SEPARATOR_OVERWRITE, SEPARATOR_FAIL_SILENTLY]

/-! Operation model (`src/parser/operation.rs`). -/

/-- Models `operation::OperationKind`. -/
inductive OperationKind where
  | Unknown
  | Create
  | Remove
  | Add
  | Show
deriving DecidableEq, Repr

/-- Display string of an operation kind. -/
def OperationKind.str : OperationKind → List Char
  | .Unknown => chars ("Unknown")
  | .Create => chars ("Create")
  | .Remove => chars ("Remove")
  | .Add => chars ("Add")
  | .Show => chars ("Show")

/-- Models `operation::Operation`: one record with optional fields, only the
fields matching the kind are populated. -/
structure Operation where
  kind : OperationKind
  departments : Option (List (List Char))
  fail_silently : Option Bool
  names : Option (List (List Char))
  overwrite : Option Bool
deriving DecidableEq, Repr

/-- Models `Operation::unknown`. -/
def Operation.unknown : Operation :=
  ⟨.Unknown, none, none, none, none⟩

/-- Models `Operation::create`. -/
def Operation.create (departments : List (List Char)) (fail_silently overwrite : Bool) :
    Operation :=
  ⟨.Create, some departments, some fail_silently, none, some overwrite⟩

/-- Models `Operation::remove`. -/
def Operation.remove (departments : List (List Char)) (fail_silently : Bool)
    (names : List (List Char)) : Operation :=
  ⟨.Remove, some departments, some fail_silently, some names, none⟩

/-- Models `Operation::add`. -/
def Operation.add (departments : List (List Char)) (fail_silently : Bool)
    (names : List (List Char)) (overwrite : Bool) : Operation :=
  ⟨.Add, some departments, some fail_silently, some names, some overwrite⟩

/-- Models `Operation::show`. -/
def Operation.show (departments : List (List Char)) (fail_silently : Bool) : Operation :=
  ⟨.Show, some departments, some fail_silently, none, none⟩

/-- Models `Operation::set_fail_silently` (`self.fail_silently.and(Some(..))`). -/
def Operation.set_fail_silently (op : Operation) (b : Bool) : Option Operation :=
  match op.fail_silently with
  | none => none
  | some _ => some { op with fail_silently := some b }

/-- Models `Operation::set_overwrite`. -/
def Operation.set_overwrite (op : Operation) (b : Bool) : Option Operation :=
  match op.overwrite with
  | none => none
  | some _ => some { op with overwrite := some b }

/-! Parse errors (`src/parser/error.rs`). -/

/-- Models `parser::Error` (the data carried; its `Display` rendering is not
needed by the claims). -/
structure ParseError where
  operation_kind : OperationKind
  operation_token : Token
  unexpected_token : Option Token
  expected_tokens : Option (List TokenValue)
  details : Option (List Char)
deriving DecidableEq, Repr

/-- Result of a fallible parser routine; `panic` models a Rust panic
(arithmetic underflow, out-of-range slice index, explicit `panic!`). -/
inductive PRes (α : Type) where
  | ok : α → PRes α
  | fail : ParseError → PRes α
  | panic : PRes α
deriving DecidableEq, Repr

/-- Result of `parse_list`; its error payload is `(token, is_empty)` as in
the source. -/
inductive LRes where
  | ok : List (List Char) × Nat → LRes
  | fail : Token × Bool → LRes
  | panic : LRes
deriving DecidableEq, Repr

/-! List parsing (`src/parser/mod.rs`, lines 85-169). -/

/-- The slice `tokens[a..=b]` (total model; all reachable calls have
`a ≤ b < tokens.length`). -/
def sliceIncl (tokens : List Token) (a b : Nat) : List Token :=
  (tokens.drop a).take (b + 1 - a)

/-- Helper loop of `get_list_element_tokens`; `i` is the current index,
`first`/`last` the first/last word indices seen so far. -/
def getListElementTokensGo (tokens : List Token) (terms : List TokenValue) :
    List Token → Nat → Option Nat → Nat → Except Nat (List Token × Nat × Bool)
  | [], _, first, last => .ok (sliceIncl tokens (first.getD 0) last, tokens.length, false)
  | t :: rest, i, first, last =>
    if t.value = SEPARATOR_VALUES || t.value = LINKER_AND then
      .ok (sliceIncl tokens (first.getD 0) last, i, false)
    else if t.value ∈ terms then
      .ok (sliceIncl tokens (first.getD 0) last, i, true)
    else
      match t.value with
      | .Whitespace => getListElementTokensGo tokens terms rest (i + 1) first last
      | .Word _ =>
        match first with
        | some _ => getListElementTokensGo tokens terms rest (i + 1) first i
        | none => getListElementTokensGo tokens terms rest (i + 1) (some i) last
      | _ => .error i

/-- Models `get_list_element_tokens`: the (dedup-ready) token slice of the
next list element, the relative index where scanning stopped, and whether it
stopped on a list terminator. -/
def getListElementTokens (tokens : List Token) (terms : List TokenValue) :
    Except Nat (List Token × Nat × Bool) :=
  getListElementTokensGo tokens terms tokens 0 none 0

/-- Helper for `getStringFromTokens`: removes consecutive duplicates, keeping
the first of each run; models `Vec::dedup`. -/
def dedupRun (p : Token) : List Token → List Token
  | [] => []
  | c :: rest => if c = p then dedupRun p rest else c :: dedupRun c rest

/-- Consecutive-duplicate removal (`Vec::dedup`). -/
def dedupConsec : List Token → List Token
  | [] => []
  | a :: rest => a :: dedupRun a rest

/-- Models `get_string_from_tokens`: dedup, then concatenate the values. -/
def getStringFromTokens (tokens : List Token) : List Char :=
  ((dedupConsec tokens).map (fun t => t.value.get)).flatten

/-- Helper completing `parse_list` after its loop: build the strings and
report an empty list as an error.  `tokens[min(i, tokens.len() - 1)]` panics
on an empty `tokens` (usize underflow / out-of-range index). -/
def parseListFinish (tokens : List Token) (elements : List (List Token)) (i : Nat) : LRes :=
  let ret := elements.map getStringFromTokens
  if ret.isEmpty then
    match tokens with
    | [] => .panic
    | _ => .fail (tokens.getD (min i (tokens.length - 1)) default, true)
  else
    .ok (ret, i)

/-- The `while` loop of `parse_list`.  The loop strictly advances the cursor
on every iteration, so `tokens.length + 1` fuel is never exhausted; the
fuel-out branch is unreachable. -/
def parseListGo (tokens : List Token) (terms : List TokenValue) :
    Nat → Nat → List (List Token) → LRes
  | 0, _, _ => .panic
  | fuel + 1, i, elements =>
    match tokens.drop i with
    | [] => parseListFinish tokens elements i
    | t :: _ =>
      if t.value = .Whitespace then parseListGo tokens terms fuel (i + 1) elements
      else if t.value ∈ terms then parseListFinish tokens elements i
      else
        match t.value with
        | .Word _ =>
          match getListElementTokens (tokens.drop i) terms with
          | .ok (elemTokens, incr, isTerminator) =>
            if isTerminator then
              parseListGo tokens terms fuel (i + incr) (elements ++ [elemTokens])
            else
              parseListGo tokens terms fuel (i + incr + 1) (elements ++ [elemTokens])
          | .error incr => parseListGo tokens terms fuel (i + incr) elements
        | _ => .fail (t, elements.isEmpty)

/-- Models `parse_list` (`src/parser/mod.rs`, lines 133-169). -/
def parseList (tokens : List Token) (terms : List TokenValue) : LRes :=
  parseListGo tokens terms (tokens.length + 1) 0 []

/-- Models the `EXPECTED` constant of `get_list_error_handler`. -/
def EXPECTED : List TokenValue := [.Whitespace, .Word []]

/-- Models `get_list_error_handler`: maps a `parse_list` error to a
`parser::Error` with the messages built in the source. -/
def getListErrorHandler (op_kind : OperationKind) (op_token : Token)
    (terms : List TokenValue) (list_elements_name : List Char) :
    Token × Bool → ParseError
  | (t, is_empty) =>
    if is_empty then
      { operation_kind := op_kind, operation_token := op_token,
        unexpected_token := some t, expected_tokens := some EXPECTED,
        details := some ((chars ("You must specify at least one ")) ++ list_elements_name ++
          (chars (" before list terminator ")) ++ fmtTokenValue t.value) }
    else
      { operation_kind := op_kind, operation_token := op_token,
        unexpected_token := some t, expected_tokens := some (EXPECTED ++ terms),
        details :=
          if t.value ∈ RESERVED then
            some ((chars ("Can\x27t use ")) ++ fmtTokenValue t.value ++
              (chars (" in lists, it\x27s reserved!")))
          else none }

/-! Terminator handling (`src/parser/mod.rs`, lines 37-83). -/

/-- Models the `get_terminators` closure; `none` marks the `Unknown` arm,
which the source turns into a `panic!`. -/
def getTerminators : OperationKind → Option (List TokenValue)
  | .Unknown => none
  | .Create | .Add => some [SEPARATOR_OVERWRITE, SEPARATOR_FAIL_SILENTLY]
  | .Show | .Remove => some [SEPARATOR_FAIL_SILENTLY]

/-- Models `handle_terminator`: zero leftover tokens is the not-terminated
error, one selects the modifier, two or more is a `panic!`. -/
def handleTerminator (tokens : List Token) (op : Operation) (op_token : Token) :
    PRes Operation :=
  match tokens with
  | [] =>
    match getTerminators op.kind with
    | none => .panic
    | some ts =>
      .fail { operation_kind := op.kind, operation_token := op_token,
              unexpected_token := none, expected_tokens := some ts,
              details := some (chars ("You didn\x27t terminate your operation!")) }
  | [t] =>
    let value := t.value
    let op_kind := op.kind
    match
      (if value = SEPARATOR_OVERWRITE then op.set_overwrite true
       else if value = SEPARATOR_FAIL_SILENTLY then op.set_fail_silently true
       else some op) with
    | some op2 => .ok op2
    | none =>
      match getTerminators op_kind with
      | none => .panic
      | some ts =>
        .fail { operation_kind := op_kind, operation_token := op_token,
                unexpected_token := some t, expected_tokens := some ts,
                details := some (fmtTokenValue value ++
                  (chars (" is not a valid terminator for the operation"))) }
  | _ => .panic

/-! Add statements and the dispatcher (`src/parser/mod.rs`, lines 210-271). -/

/-- Models `parse_add`.  The slice `&tokens[i + 1..]` panics when
`i + 1 > tokens.len()`. -/
def parseAdd (op_token : Token) (tokens : List Token) : PRes Operation :=
  match parseList tokens [LINKER_TO] with
  | .panic => .panic
  | .fail e => .fail (getListErrorHandler .Add op_token [LINKER_TO] (chars ("name")) e)
  | .ok (names, i) =>
    if i + 1 ≤ tokens.length then
      match parseList (tokens.drop (i + 1)) TERMINATORS with
      | .panic => .panic
      | .fail e => .fail (getListErrorHandler .Add op_token TERMINATORS (chars ("department")) e)
      | .ok (departments, j) =>
        handleTerminator (tokens.drop (min (i + j + 1) tokens.length))
          (Operation.add departments false names false) op_token
    else .panic

/-- Models `get_statement_slice`: the prefix up to and including the first
operation terminator, or all the tokens when none occurs. -/
def getStatementSlice (tokens : List Token) : List Token :=
  match tokens.findIdx? (fun t => t.value ∈ TERMINATORS) with
  | some i => tokens.take (i + 1)
  | none => tokens

/-- The `while` loop of `parse`.  The cursor strictly advances, so
`tokens.length + 1` fuel is never exhausted. -/
def parseGo (tokens : List Token) : Nat → Nat → List Operation → PRes (List Operation)
  | 0, _, _ => .panic
  | fuel + 1, i, res =>
    match tokens.drop i with
    | [] => .ok res
    | t :: rest =>
      if t.value = .Whitespace then parseGo tokens fuel (i + 1) res
      else if t.value = KEYWORD_ADD then
        let add_tokens := getStatementSlice rest
        match parseAdd t add_tokens with
        | .panic => .panic
        | .fail e => .fail e
        | .ok op => parseGo tokens fuel (i + add_tokens.length + 1) (res ++ [op])
      else
        .fail { operation_kind := .Unknown, operation_token := t,
                unexpected_token := some t, expected_tokens := some KEYWORDS,
                details := some (chars ("You must input an operation!")) }

/-- Models `parse` (`src/parser/mod.rs`, lines 241-271): only the `Add`
keyword is dispatched; every other non-whitespace token is the
"You must input an operation!" error. -/
def parse (tokens : List Token) : PRes (List Operation) :=
  parseGo tokens (tokens.length + 1) 0 []

/-! The composed pipeline (`src/lib.rs`, `lex_parse`). -/

/-- Result of the composed pipeline. -/
inductive LPRes where
  | ok : List Operation → LPRes
  | lexFail : LexError → LPRes
  | fail : ParseError → LPRes
  | panic : LPRes
deriving DecidableEq, Repr

/-- Models `lex_parse`: lex, then parse. -/
def lexParse (s : List Char) : LPRes :=
  match lex s with
  | .error e => .lexFail e
  | .ok ts =>
    match parse ts with
    | .ok ops => .ok ops
    | .fail e => .fail e
    | .panic => .panic

/-! Rendering (`src/parser/operation.rs`, lines 156-201 and
`src/util.rs`, `fmt_list`). -/

/-- Models `util::fmt_list`: joins with `sep`, a final `linker` before the
last element, and an extra comma when more than two elements. -/
def fmtList (elems : List (List Char)) (sep linker : List Char) : List Char :=
  match elems.getLast? with
  | none => []
  | some last =>
    let rest := elems.dropLast
    if rest.isEmpty then last
    else
      (List.intercalate sep rest) ++
        (if rest.length = 1 then [] else chars (",")) ++
        (chars (" ")) ++ linker ++ (chars (" ")) ++ last

/-- Models `fmt_modifier`: fail-silently wins over overwrite. -/
def fmtModifier (op : Operation) : List Char :=
  if op.fail_silently.getD false then chars (" (fail silently)")
  else if op.overwrite.getD false then chars (" (overwrite if existing)")
  else []

/-- Models `fmt_names`: the joined names plus the linker, or empty. -/
def fmtNames (elems : List (List Char)) (linker : List Char) : List Char :=
  let names := fmtList elems (chars (", ")) (chars ("and"))
  if names.isEmpty then names
  else (chars (" ")) ++ names ++ (chars (" ")) ++ linker

/-- Models the `fmt::Display` implementation of `Operation` (the `names()`
accessor unwraps; `getD []` stands for the unwrap, which never sees `none`
on the kinds that reach it). -/
def fmtOperation (op : Operation) : List Char :=
  match op.kind with
  | .Unknown => OperationKind.str .Unknown
  | _ =>
    let statement :=
      match op.kind with
      | .Create | .Show => op.kind.str
      | _ =>
        op.kind.str ++
          fmtNames (op.names.getD [])
            (match op.kind with
             | .Add => chars ("to")
             | .Remove => chars ("from")
             | _ => [])
    statement ++ (chars (" ")) ++
      fmtList (op.departments.getD []) (chars (", ")) (chars ("and")) ++
      fmtModifier op

/-! Small helpers used by the theorem statements. -/

/-- The tokens of a source string known to lex successfully. -/
def tokensOf (s : String) : List Token :=
  ((lex (chars s)).toOption).getD []

/-- Whether the pipeline result is a parse error (as opposed to success, a
lex error, or a panic). -/
def LPRes.isFail : LPRes → Bool
  | .fail _ => true
  | _ => false

/-- The column number carried by a per-segment lexing result (both the token
and the error wrap the same position data). -/
def columnOf : Except LexError Token → Nat
  | .ok t => t.column_number
  | .error e => e.token.column_number

end Eql

namespace Eql

/-! Claim theorems. -/

/-- C1: the claim says `parse` routes all four reserved keywords (`Add`,
`Create`, `Remove`, `Show`) to matching sub-parsers and that
`parse(lex("Show HR?"))` yields one `Show` operation with departments
`["HR"]` and the fail-silently modifier.  The dispatcher in
`src/parser/mod.rs` only matches `KEYWORD_ADD`; a `Show` statement falls
into the catch-all arm and produces the top-level
"You must input an operation!" error — contradicting the claim, the spec,
and the doc-test of the crate itself (`src/lexer.rs`, lines 170-176), which asserts
`lex_parse("Show HR?")` equals a `Show` operation.  This theorem evaluates
the embedded pipeline at the failing input. -/
theorem parse_show_statement_rejected :
    lexParse (chars ("Show HR?")) =
      .fail { operation_kind := .Unknown,
              operation_token := ⟨KEYWORD_SHOW, chars ("Show HR?"), 1, 1⟩,
              unexpected_token := some ⟨KEYWORD_SHOW, chars ("Show HR?"), 1, 1⟩,
              expected_tokens := some KEYWORDS,
              details := some (chars ("You must input an operation!")) } := by
  decide

/-- C2: the claim says `parse` is total and never panics, explicitly
including inputs lexed from `"Add"` and `"Add Mihai"`.  It is not: for
`"Add"` the statement slice is empty and `parse_list` evaluates
`tokens[min(i, tokens.len() - 1)]` on an empty slice (usize underflow /
out-of-range index — a panic); for `"Add Mihai"` the names list consumes
past the end and `parse_add` slices `&tokens[i + 1..]` with
`i + 1 > tokens.len()` (a panic).  The four error inputs listed by the spec
do return errors without panicking, which is why the slip went unnoticed by
the tests of the crate. -/
theorem parse_panics_on_unterminated_add :
    lexParse (chars ("Add")) = .panic ∧
    lexParse (chars ("Add Mihai")) = .panic ∧
    (lexParse (chars ("Add Mihai, Andrei and Ioan to ."))).isFail = true ∧
    (lexParse (chars ("Add to?"))).isFail = true ∧
    (lexParse (chars ("Add!"))).isFail = true ∧
    (lexParse (chars ("Mama, and, Tata."))).isFail = true := by
  decide

/-- C3 counterexample: the claim says that for every valid single-statement
input, rendering the parsed `Operation` via `Display` and lexing+parsing the
rendered text again yields an equal `Operation`.  It fails on the valid
statement `"Add Mihai to HR."`: the rendering `"Add Mihai to HR"` omits the
terminator, so re-parsing it is the not-terminated error, not an
operation. -/
theorem roundtrip_not_stable :
    lexParse (chars ("Add Mihai to HR.")) =
      .ok [Operation.add [chars ("HR")] false [chars ("Mihai")] false] ∧
    fmtOperation (Operation.add [chars ("HR")] false [chars ("Mihai")] false) =
      chars ("Add Mihai to HR") ∧
    lexParse (fmtOperation (Operation.add [chars ("HR")] false [chars ("Mihai")] false)) =
      .fail { operation_kind := .Add,
              operation_token := ⟨KEYWORD_ADD, chars ("Add Mihai to HR"), 1, 1⟩,
              unexpected_token := none,
              expected_tokens := some [SEPARATOR_OVERWRITE, SEPARATOR_FAIL_SILENTLY],
              details := some (chars ("You didn\x27t terminate your operation!")) } := by
  refine ⟨by decide, by decide, by decide⟩

/-- C3 amended: the rendering of a parsed operation never re-parses to an
equal operation in one round trip — the terminator is omitted, and a
non-`None` modifier renders as a parenthesized suffix whose `(` does not
even lex.  Stability holds only after re-appending a terminator: appending
`"."` to the modifier-free rendering of the operation parsed from
`"Add Mihai to HR."` re-parses to the equal operation, while the rendering
of the fail-silently operation parsed from `"Add Mihai to HR?"` fails
lexing at the `(` of `" (fail silently)"`. -/
theorem roundtrip_needs_terminator_reappended :
    lexParse (fmtOperation (Operation.add [chars ("HR")] false [chars ("Mihai")] false) ++
        chars (".")) =
      .ok [Operation.add [chars ("HR")] false [chars ("Mihai")] false] ∧
    lexParse (chars ("Add Mihai to HR?")) =
      .ok [Operation.add [chars ("HR")] true [chars ("Mihai")] false] ∧
    lexParse (fmtOperation (Operation.add [chars ("HR")] true [chars ("Mihai")] false)) =
      .lexFail ⟨⟨.Unknown (chars ("(")), chars ("Add Mihai to HR (fail silently)"), 1, 17⟩⟩ := by
  refine ⟨by decide, by decide, by decide⟩

/-- C4: `parse(lex("Add Mihai, Andrei and Ioan to Science and Engineering!"))`
is exactly one `Add` operation with names `["Mihai","Andrei","Ioan"]`,
departments `["Science","Engineering"]` and the overwrite modifier set (the
`!` terminator maps to `set_overwrite(true)` in `handle_terminator`). -/
theorem parse_add_full_statement :
    lexParse (chars ("Add Mihai, Andrei and Ioan to Science and Engineering!")) =
      .ok [Operation.add [chars ("Science"), chars ("Engineering")] false
        [chars ("Mihai"), chars ("Andrei"), chars ("Ioan")] true] := by
  decide

/-- C5: the claim says every token sequence with consecutive list separators
and no element between them is an error, naming both `"Mama, and, Tata."`
and `"Mama and and Tata."`.  Only the first errors (the stray `and` is
consumed as a one-token element, after which the `,` is an unexpected
token); in `"Mama and and Tata."` the second `and` likewise becomes the list
element `"and"` and `parse_list` SUCCEEDS with `["Mama","and","Tata"]` —
contradicting the claim, the spec (§4.4, §9) and the test the repository itself carries,
`parse_list_multiple_consecutive_separators` (src/parser/util.rs, lines
281-288), which asserts that this exact input must fail. -/
theorem parse_list_accepts_consecutive_and :
    parseList (tokensOf ("Mama, and, Tata.")) [SEPARATOR] =
      .fail (⟨SEPARATOR_VALUES, chars ("Mama, and, Tata."), 1, 10⟩, false) ∧
    parseList (tokensOf ("Mama and and Tata.")) [SEPARATOR] =
      .ok ([chars ("Mama"), chars ("and"), chars ("Tata")], 7) := by
  refine ⟨by decide, by decide⟩

/-- C6 counterexample: the claim says a reserved word appearing where a list
element is expected is rejected with a "reserved word used in list" error
and that reserved words never appear inside a successfully parsed list
element.  Yet `parse(lex("Add and to HR."))` SUCCEEDS with the reserved
linker `"and"` as the single name element. -/
theorem reserved_word_parses_as_list_element :
    lexParse (chars ("Add and to HR.")) =
      .ok [Operation.add [chars ("HR")] false [chars ("and")] false] := by
  decide

/-- C6 amended: reserved words are not rejected as list elements.  A stray
`and` linker with no pending words is consumed by `get_list_element_tokens`
as a one-token element, and reserved keywords such as `Show` parse as
ordinary `Word` elements; the reserved-word error message
exists only inside `get_list_error_handler` and is not produced on these
inputs. -/
theorem reserved_words_accepted_in_lists :
    lexParse (chars ("Add Show to HR.")) =
      .ok [Operation.add [chars ("HR")] false [chars ("Show")] false] ∧
    parseList (tokensOf ("and")) [SEPARATOR] = .ok ([chars ("and")], 1) := by
  refine ⟨by decide, by decide⟩

/-- C7 counterexample: the claim says a successfully parsed list element
joins its words with exactly one space per interior whitespace RUN,
regardless of the whitespace mix (spaces, tabs).  With the mix
`" \t "` between `Mama` and `Tata`, UAX-29 segments the run into three
whitespace tokens (spaces cluster, a tab does not), each contributing one
space, and `Vec::dedup` compares whole tokens — including their distinct
columns — so it merges nothing: the element is `"Mama   Tata"` (three
spaces), not `"Mama Tata"`. -/
theorem element_join_tab_mix :
    lexParse (chars ("Add Mama \t Tata to HR.")) =
      .ok [Operation.add [chars ("HR")] false [chars ("Mama   Tata")] false] := by
  decide

/-- C7 amended: the element joins its words with exactly one space per
interior whitespace TOKEN: a maximal run of plain spaces lexes as a single
whitespace token and so becomes one space, while each tab lexes as its own
whitespace token and contributes its own space; leading/trailing whitespace
around the element is discarded.  (The dedup step never merges distinct
whitespace tokens, because token equality includes the column number.) -/
theorem element_join_one_space_per_whitespace_token :
    lexParse (chars ("Add Mama     Tata to HR.")) =
      .ok [Operation.add [chars ("HR")] false [chars ("Mama Tata")] false] ∧
    lexParse (chars ("Add Mama\t\tTata to HR.")) =
      .ok [Operation.add [chars ("HR")] false [chars ("Mama  Tata")] false] := by
  refine ⟨by decide, by decide⟩

/-- C8 counterexample: the claim says `lex` of a whitespace-only input
returns an EMPTY token sequence.  It does not: `lex(" ")` returns one
`Whitespace` token (cf. the `lex_whitespace` test of the crate, which expects
four whitespace tokens for `" \n\r\n\t"`). -/
theorem lex_whitespace_tokens_not_empty :
    lex (chars (" ")) = .ok [⟨.Whitespace, chars (" "), 1, 1⟩] ∧
    lex (chars (" ")) ≠ .ok [] := by
  refine ⟨by decide, by decide⟩

end Eql

namespace Eql

/-! Supporting lemmas for the lexer-level claims. -/

/-- Every numbered line comes from the input line list. -/
theorem mem_numberLines {n : Nat} {ls : List (List Char)} {p : Nat × List Char}
    (h : p ∈ numberLines n ls) : p.2 ∈ ls := by
  induction ls generalizing n with
  | nil => simp [numberLines] at h
  | cons l rest ih =>
    simp only [numberLines, List.mem_cons] at h
    rcases h with h | h
    · rw [h]; exact List.mem_cons_self _ _
    · exact List.mem_cons_of_mem _ (ih h)

/-- Characters of the lines produced by `splitLinesGo` come from the
accumulator or the remaining input. -/
theorem splitLinesGo_allWs {s acc : List Char}
    (hs : ∀ c ∈ s, isWsChar c = true) (hacc : ∀ c ∈ acc, isWsChar c = true) :
    ∀ line ∈ splitLinesGo acc s, ∀ c ∈ line, isWsChar c = true := by
  induction s generalizing acc with
  | nil =>
    intro line hline c hc
    simp only [splitLinesGo] at hline
    split at hline
    · simp at hline
    · simp only [List.mem_singleton] at hline
      subst hline
      exact hacc c (List.mem_reverse.mp hc)
  | cons a rest ih =>
    intro line hline c hc
    have ha : isWsChar a = true := hs a (List.mem_cons_self _ _)
    have hrest : ∀ c ∈ rest, isWsChar c = true :=
      fun c hc => hs c (List.mem_cons_of_mem _ hc)
    simp only [splitLinesGo] at hline
    split at hline
    · rcases List.mem_cons.mp hline with h | h
      · subst h
        rcases List.mem_cons.mp (List.mem_reverse.mp hc) with h | h
        · subst h; exact ha
        · exact hacc c h
      · exact ih hrest (by simp) line h c hc
    · refine ih hrest ?_ line hline c hc
      intro d hd
      rcases List.mem_cons.mp hd with h | h
      · subst h; exact ha
      · exact hacc d h

/-- Segments delivered by `segmentLineGo` only hold characters of the
current segment or the remaining input. -/
theorem segmentLineGo_allWs {rest cur : List Char} {p : Char}
    (hrest : ∀ c ∈ rest, isWsChar c = true) (hcur : ∀ c ∈ cur, isWsChar c = true) :
    ∀ seg ∈ segmentLineGo cur p rest, ∀ c ∈ seg, isWsChar c = true := by
  induction rest generalizing cur p with
  | nil =>
    intro seg hseg c hc
    simp only [segmentLineGo, List.mem_singleton] at hseg
    subst hseg
    exact hcur c (List.mem_reverse.mp hc)
  | cons a tail ih =>
    intro seg hseg c hc
    have ha : isWsChar a = true := hrest a (List.mem_cons_self _ _)
    have htail : ∀ c ∈ tail, isWsChar c = true :=
      fun c hc => hrest c (List.mem_cons_of_mem _ hc)
    simp only [segmentLineGo] at hseg
    split at hseg
    · refine ih htail ?_ seg hseg c hc
      intro d hd
      rcases List.mem_cons.mp hd with h | h
      · subst h; exact ha
      · exact hcur d h
    · rcases List.mem_cons.mp hseg with h | h
      · subst h; exact hcur c (List.mem_reverse.mp hc)
      · exact ih htail (by simpa using ha) seg h c hc

/-- Segments of an all-whitespace line are all-whitespace. -/
theorem segmentLine_allWs {line : List Char}
    (h : ∀ c ∈ line, isWsChar c = true) :
    ∀ seg ∈ segmentLine line, ∀ c ∈ seg, isWsChar c = true := by
  cases line with
  | nil => intro seg hseg; simp [segmentLine] at hseg
  | cons a rest =>
    exact segmentLineGo_allWs (fun c hc => h c (List.mem_cons_of_mem _ hc))
      (by simpa using h a (List.mem_cons_self _ _))

/-- An all-whitespace segment classifies as `Whitespace`. -/
theorem getTokenValue_ws {s : List Char} (h : ∀ c ∈ s, isWsChar c = true) :
    getTokenValue s = .Whitespace := by
  have : isWhitespaceSeg s = true := List.all_eq_true.mpr h
  simp [getTokenValue, this]

/-- `getToken` on an all-whitespace segment succeeds with a whitespace
token. -/
theorem getToken_ws {s : List Char} {n col : Nat} {line : List Char}
    (h : ∀ c ∈ s, isWsChar c = true) :
    getToken s n col line = .ok ⟨.Whitespace, line, n, col⟩ := by
  simp [getToken, getTokenValue_ws h]

/-- Per-segment results of an all-whitespace segment list are all successful
whitespace tokens. -/
theorem lexLineGo_ws {n : Nat} {line : List Char} {segs : List (List Char)}
    (h : ∀ seg ∈ segs, ∀ c ∈ seg, isWsChar c = true) :
    ∀ col, ∀ r ∈ lexLineGo n line segs col, ∃ t, r = .ok t ∧ t.value = .Whitespace := by
  induction segs with
  | nil => intro col r hr; simp [lexLineGo] at hr
  | cons seg rest ih =>
    intro col r hr
    rcases List.mem_cons.mp hr with h1 | h1
    · subst h1
      exact ⟨⟨.Whitespace, line, n, col⟩, getToken_ws (h seg (List.mem_cons_self _ _)), rfl⟩
    · exact ih (fun sg hs => h sg (List.mem_cons_of_mem _ hs)) _ r h1

/-- Per-segment results of all-whitespace numbered lines are all successful
whitespace tokens. -/
theorem lexAll_ws {ps : List (Nat × List Char)}
    (h : ∀ p ∈ ps, ∀ c ∈ p.2, isWsChar c = true) :
    ∀ r ∈ lexAll ps, ∃ t, r = .ok t ∧ t.value = .Whitespace := by
  induction ps with
  | nil => intro r hr; simp [lexAll] at hr
  | cons p rest ih =>
    intro r hr
    rcases List.mem_append.mp hr with h1 | h1
    · exact lexLineGo_ws (segmentLine_allWs (h p (List.mem_cons_self _ _))) 1 r h1
    · exact ih (fun q hq => h q (List.mem_cons_of_mem _ hq)) r h1

/-- Collecting a list of all-successful results succeeds, and the collected
tokens satisfy the per-result property. -/
theorem collectExcept_ok_of_forall {P : Token → Prop} :
    ∀ {l : List (Except LexError Token)},
      (∀ r ∈ l, ∃ t, r = .ok t ∧ P t) →
      ∃ ts, collectExcept l = .ok ts ∧ ∀ t ∈ ts, P t := by
  intro l
  induction l with
  | nil => intro _; exact ⟨[], rfl, by simp⟩
  | cons r rest ih =>
    intro h
    obtain ⟨t, rfl, ht⟩ := h r (List.mem_cons_self _ _)
    obtain ⟨ts, hco, hts⟩ := ih (fun r hr => h r (List.mem_cons_of_mem _ hr))
    refine ⟨t :: ts, by simp [collectExcept, hco], ?_⟩
    intro u hu
    rcases List.mem_cons.mp hu with h1 | h1
    · subst h1; exact ht
    · exact hts u h1

/-- The dispatcher loop maps a run of whitespace tokens to its accumulator:
it only ever skips. -/
theorem parseGo_whitespace (ts : List Token)
    (hws : ∀ t ∈ ts, t.value = .Whitespace) :
    ∀ fuel i res, ts.length - i < fuel → parseGo ts fuel i res = .ok res := by
  intro fuel
  induction fuel with
  | zero => intro i res h; omega
  | succ fuel ih =>
    intro i res h
    cases hdrop : ts.drop i with
    | nil => simp [parseGo, hdrop]
    | cons t rest =>
      have htmem : t ∈ ts := List.drop_subset i ts (hdrop ▸ List.mem_cons_self t rest)
      have hlen := congrArg List.length hdrop
      simp only [List.length_drop, List.length_cons] at hlen
      have hv := hws t htmem
      rw [parseGo, hdrop]
      simp only [hv, if_pos]
      exact ih (i + 1) res (by omega)

/-! Claim C8 (amended) and its witness. -/

/-- C8 amended: for every input consisting only of whitespace characters,
`lex` succeeds and returns a sequence of `Whitespace` tokens — NOT the empty
sequence claimed (one token per segment; empty only for empty input) — and
`parse` of that result is `Ok` with the empty operation list (the dispatcher
skips every whitespace token). -/
theorem lex_parse_whitespace_only (s : List Char)
    (h : ∀ c ∈ s, isWsChar c = true) :
    ∃ ts, lex s = .ok ts ∧ (∀ t ∈ ts, t.value = .Whitespace) ∧ parse ts = .ok [] := by
  have hnl : ∀ p ∈ numberLines 1 (splitLines s), ∀ c ∈ p.2, isWsChar c = true := by
    intro p hp c hc
    exact splitLinesGo_allWs h (by simp) p.2 (mem_numberLines hp) c hc
  obtain ⟨ts, hok, hts⟩ := collectExcept_ok_of_forall (lexAll_ws hnl)
  exact ⟨ts, hok, hts, parseGo_whitespace ts hts (ts.length + 1) 0 [] (by omega)⟩

/-- Witness for C8 amended at the input of the `lex_whitespace` test. -/
theorem lex_parse_whitespace_only_witness :
    (∀ c ∈ chars (" \n\r\n\t"), isWsChar c = true) ∧
    ∃ ts, lex (chars (" \n\r\n\t")) = .ok ts ∧
      (∀ t ∈ ts, t.value = .Whitespace) ∧ parse ts = .ok [] :=
  ⟨by decide, lex_parse_whitespace_only (chars (" \n\r\n\t")) (by decide)⟩

end Eql

namespace Eql

/-! Claim C9: column numbers are cumulative grapheme counts. -/

/-- Both outcomes of `getToken` carry the column it was called with. -/
theorem columnOf_getToken (s : List Char) (n col : Nat) (line : List Char) :
    columnOf (getToken s n col line) = col := by
  unfold getToken columnOf
  cases getTokenValue s <;> rfl

/-- The per-line loop assigns the `k`-th segment the starting column plus the
grapheme counts of the segments before it. -/
theorem lexLineGo_columns (n : Nat) (line : List Char) :
    ∀ (segs : List (List Char)) (col k : Nat)
      (h : k < (lexLineGo n line segs col).length),
      columnOf ((lexLineGo n line segs col).get ⟨k, h⟩) =
        col + (((segs.take k).map stringLength).sum) := by
  intro segs
  induction segs with
  | nil => intro col k h; simp [lexLineGo] at h
  | cons seg rest ih =>
    intro col k h
    cases k with
    | zero => simpa [lexLineGo] using columnOf_getToken seg n col line
    | succ k =>
      have h2 : k < (lexLineGo n line rest (col + stringLength seg)).length := by
        simpa [lexLineGo] using h
      have step :
          columnOf ((lexLineGo n line (seg :: rest) col).get ⟨k + 1, h⟩) =
            columnOf ((lexLineGo n line rest (col + stringLength seg)).get ⟨k, h2⟩) := rfl
      rw [step, ih (col + stringLength seg) k h2]
      simp [List.take_succ_cons]
      omega

/-- C9: every per-segment result that `lex` emits for a line (`lex` is
`collectExcept` of `lexLine` over the numbered lines) carries a column
number equal to 1 plus the cumulative grapheme-cluster count
(`stringLength`) of all segments consumed earlier on the same line — not
their byte or code-point count. -/
theorem lex_column_grapheme_cumsum (n : Nat) (line : List Char) (k : Nat)
    (h : k < (lexLine n line).length) :
    columnOf ((lexLine n line).get ⟨k, h⟩) =
      1 + (((segmentLine line).take k).map stringLength).sum :=
  lexLineGo_columns n line (segmentLine line) 1 k h

/-- Witness for C9 on a line starting with the two-code-point Hangul
grapheme cluster U+1100 U+1161: the token after the cluster and one space
sits at column 3, where a code-point count would give 4. -/
theorem lex_column_grapheme_cumsum_witness :
    columnOf ((lexLine 1 (chars ("가 X"))).get ⟨2, by decide⟩) = 3 :=
  (lex_column_grapheme_cumsum 1 (chars ("가 X")) 2 (by decide)).trans (by decide)

/-! Claim C10: a successful lex never returns an `Unknown` token. -/

/-- Collected tokens come from successful entries of the input list. -/
theorem collectExcept_ok_mem :
    ∀ {l : List (Except LexError Token)} {ts : List Token},
      collectExcept l = .ok ts → ∀ t ∈ ts, Except.ok t ∈ l := by
  intro l
  induction l with
  | nil =>
    intro ts h t ht
    simp only [collectExcept, Except.ok.injEq] at h
    subst h
    simp at ht
  | cons r rest ih =>
    intro ts h t ht
    match r with
    | .error e => simp [collectExcept] at h
    | .ok a =>
      simp only [collectExcept] at h
      cases hco : collectExcept rest with
      | error e => rw [hco] at h; simp at h
      | ok ts2 =>
        rw [hco] at h
        simp only [Except.ok.injEq] at h
        subst h
        rcases List.mem_cons.mp ht with h1 | h1
        · subst h1; exact List.mem_cons_self _ _
        · exact List.mem_cons_of_mem _ (ih hco t h1)

/-- Each per-line result is a `getToken` of one segment of the line. -/
theorem lexLineGo_mem {n : Nat} {line : List Char} :
    ∀ {segs : List (List Char)} {col : Nat} {r : Except LexError Token},
      r ∈ lexLineGo n line segs col →
      ∃ seg col2, seg ∈ segs ∧ r = getToken seg n col2 line := by
  intro segs
  induction segs with
  | nil => intro col r hr; simp [lexLineGo] at hr
  | cons seg rest ih =>
    intro col r hr
    rcases List.mem_cons.mp hr with h1 | h1
    · exact ⟨seg, col, List.mem_cons_self _ _, h1⟩
    · obtain ⟨sg, col2, hmem, heq⟩ := ih h1
      exact ⟨sg, col2, List.mem_cons_of_mem _ hmem, heq⟩

/-- Each result of `lexAll` comes from lexing one of the numbered lines. -/
theorem lexAll_mem :
    ∀ {ps : List (Nat × List Char)} {r : Except LexError Token},
      r ∈ lexAll ps → ∃ p, p ∈ ps ∧ r ∈ lexLine p.1 p.2 := by
  intro ps
  induction ps with
  | nil => intro r hr; simp [lexAll] at hr
  | cons p rest ih =>
    intro r hr
    rcases List.mem_append.mp hr with h1 | h1
    · exact ⟨p, List.mem_cons_self _ _, h1⟩
    · obtain ⟨q, hq, hr2⟩ := ih h1
      exact ⟨q, List.mem_cons_of_mem _ hq, hr2⟩

/-- A successful `getToken` carries the classification of the segment as its
value, and that classification is not `Unknown`. -/
theorem getToken_ok_value {s : List Char} {n col : Nat} {line : List Char} {t : Token}
    (h : getToken s n col line = .ok t) :
    t.value = getTokenValue s ∧ ∀ u, getTokenValue s ≠ .Unknown u := by
  unfold getToken at h
  cases hv : getTokenValue s <;> rw [hv] at h <;> simp only [Except.ok.injEq] at h <;>
    first
      | (subst h; exact ⟨rfl, by simp⟩)
      | simp at h

/-- Case analysis on the classification if-chain of `get_token_value`. -/
theorem getTokenValue_cases (s : List Char) :
    getTokenValue s = .Whitespace ∨
    (getTokenValue s = .Word s ∧ isAlphabeticSeg s = true) ∨
    (getTokenValue s = .Punctuation s ∧ isPunctuationSeg s = true) ∨
    getTokenValue s = .Unknown s := by
  unfold getTokenValue
  split_ifs with h1 h2 h3 <;> simp [*]

/-- The punctuation guard only accepts the four single-character marks. -/
theorem isPunctuationSeg_cases {s : List Char} (h : isPunctuationSeg s = true) :
    s = [','] ∨ s = ['.'] ∨ s = ['!'] ∨ s = ['?'] := by
  rcases s with _ | ⟨c, _ | ⟨d, rest⟩⟩
  · simp [isPunctuationSeg] at h
  · simp only [isPunctuationSeg, Bool.or_eq_true, decide_eq_true_eq] at h
    rcases h with ((h | h) | h) | h <;> subst h <;> simp
  · simp [isPunctuationSeg] at h

/-- C10: whenever `lex` succeeds, no returned token carries an `Unknown`
value — every token is `Whitespace`, a `Word` of letter characters only, or
a `Punctuation` that is exactly one of `,` `.` `!` `?` (an `Unknown`
segment instead makes `lex` return the error). -/
theorem lex_ok_no_unknown (s : List Char) (ts : List Token)
    (h : lex s = .ok ts) :
    ∀ t ∈ ts,
      (∀ u, t.value ≠ .Unknown u) ∧
      (t.value = .Whitespace ∨
        (∃ w, t.value = .Word w ∧ ∀ c ∈ w, isLetterChar c = true) ∨
        (∃ p, t.value = .Punctuation p ∧
          (p = [','] ∨ p = ['.'] ∨ p = ['!'] ∨ p = ['?']))) := by
  intro t ht
  have hmem : Except.ok t ∈ lexAll (numberLines 1 (splitLines s)) :=
    collectExcept_ok_mem h t ht
  obtain ⟨p, _, hr⟩ := lexAll_mem hmem
  obtain ⟨seg, col2, _, heq⟩ := lexLineGo_mem hr
  obtain ⟨hval, hnu⟩ := getToken_ok_value heq.symm
  rcases getTokenValue_cases seg with hc | ⟨hc, ha⟩ | ⟨hc, hp⟩ | hc
  · rw [hval, hc]
    exact ⟨by simp, Or.inl rfl⟩
  · rw [hval, hc]
    exact ⟨by simp, Or.inr (Or.inl ⟨seg, rfl, List.all_eq_true.mp ha⟩)⟩
  · rw [hval, hc]
    exact ⟨by simp, Or.inr (Or.inr ⟨seg, rfl, isPunctuationSeg_cases hp⟩)⟩
  · exact absurd hc (hnu seg)

/-- Witness for C10 at the input `"Hi!"` and its first token. -/
theorem lex_ok_no_unknown_witness :
    (∀ u, (⟨.Word (chars ("Hi")), chars ("Hi!"), 1, 1⟩ : Token).value ≠ .Unknown u) ∧
    ((⟨.Word (chars ("Hi")), chars ("Hi!"), 1, 1⟩ : Token).value = .Whitespace ∨
      (∃ w, (⟨.Word (chars ("Hi")), chars ("Hi!"), 1, 1⟩ : Token).value = .Word w ∧
        ∀ c ∈ w, isLetterChar c = true) ∨
      (∃ p, (⟨.Word (chars ("Hi")), chars ("Hi!"), 1, 1⟩ : Token).value = .Punctuation p ∧
        (p = [','] ∨ p = ['.'] ∨ p = ['!'] ∨ p = ['?']))) :=
  lex_ok_no_unknown (chars ("Hi!"))
    [⟨.Word (chars ("Hi")), chars ("Hi!"), 1, 1⟩,
     ⟨.Punctuation (chars ("!")), chars ("Hi!"), 1, 3⟩]
    (by decide)
    ⟨.Word (chars ("Hi")), chars ("Hi!"), 1, 1⟩ (by decide)

end Eql
